import Mathlib

/-!
Verification of the boundary marshaling layer of a native tensor runtime
binding (`src/binding/utils.h`).  Strings crossing the boundary are modelled
as `List Char`; machine integers as `Nat`/`Int` with explicit wrapping where
the C code can overflow; each fallible N-API call is modelled by its status
code plus the data it would produce on success.
-/

/-- Helper for `decimalRevDigits`, structurally recursive on a fuel bound
so that it reduces inside the kernel; since `n / 10 < n` for positive `n`,
fuel `n` is always sufficient. -/
def decimalRevDigitsAux : Nat → Nat → List Char
  | _, 0 => []
  | 0, _ + 1 => []
  | fuel + 1, n + 1 =>
      Char.ofNat (48 + (n + 1) % 10) :: decimalRevDigitsAux fuel ((n + 1) / 10)

/-- Decimal digits of a natural number in reverse order (empty for 0).
Models the digit production of the C `%u` conversion. -/
def decimalRevDigits (n : Nat) : List Char := decimalRevDigitsAux n n

/-- Decimal representation of a natural number, as printed by `%u` in
`std::vsnprintf`. -/
def natDecimal (n : Nat) : List Char :=
  if n = 0 then [Char.ofNat 48] else (decimalRevDigits n).reverse

/-- Models `NapiThrowError` (utils.h line 50): the message is formatted by
`std::vsnprintf` into a `char buffer[500]`, so at most 499 characters of the
formatted message survive, and the truncated message is thrown via
`napi_throw_error`.  The function returns the thrown message. -/
def NapiThrowError (message : List Char) : List Char :=
  message.take 499

/-- Models `EnsureNapiOK` (utils.h lines 66-76).  `status` is the numeric
`napi_status` (0 is `napi_ok`); `errorMessage` is the `error_message` field
of `napi_get_last_error_info` (`none` models a null pointer, replaced by
"unknown").  Returns the boolean result together with the thrown message,
if any.  The format string is "Invalid napi_status: %s\n". -/
def EnsureNapiOK (status : Nat) (errorMessage : Option (List Char)) :
    Bool × Option (List Char) :=
  if status ≠ 0 then
    (false, some (NapiThrowError ("Invalid napi_status: ".toList ++
      errorMessage.getD "unknown".toList ++ "\n".toList)))
  else (true, none)

/-- Models `EnsureTFOK` (utils.h lines 83-91).  `tf_code` is the numeric
`TF_Code` of the status (0 is `TF_OK`); `tf_message` is `TF_Message(status)`.
The format string is "Invalid TF_Status: %u\nMessage: %s". -/
def EnsureTFOK (tf_code : Nat) (tf_message : List Char) :
    Bool × Option (List Char) :=
  if tf_code ≠ 0 then
    (false, some (NapiThrowError ("Invalid TF_Status: ".toList ++
      natDecimal tf_code ++ "\nMessage: ".toList ++ tf_message)))
  else (true, none)

/-- The `napi_valuetype` enumeration of the managed environment. -/
inductive NapiValueType where
  | napi_undefined | napi_null | napi_boolean | napi_number | napi_string
  | napi_symbol | napi_object | napi_function | napi_external | napi_bigint
deriving DecidableEq

/-- Models `EnsureValueIsString` (utils.h lines 132-141).  `typeofStatus` and
`typeofEmsg` model the `napi_typeof` boundary call; `t` is the value's type
when that call succeeds. -/
def EnsureValueIsString (typeofStatus : Nat) (typeofEmsg : Option (List Char))
    (t : NapiValueType) : Bool × Option (List Char) :=
  if (EnsureNapiOK typeofStatus typeofEmsg).1 = false then
    (false, (EnsureNapiOK typeofStatus typeofEmsg).2)
  else if t = NapiValueType.napi_string then (true, none)
  else (false, some (NapiThrowError "Argument is not a string!".toList))

/-- Models `EnsureValueIsNumber` (utils.h lines 148-157).  Note the message
raised on failure is the literal from the source: "Argument is not a
string!". -/
def EnsureValueIsNumber (typeofStatus : Nat) (typeofEmsg : Option (List Char))
    (t : NapiValueType) : Bool × Option (List Char) :=
  if (EnsureNapiOK typeofStatus typeofEmsg).1 = false then
    (false, (EnsureNapiOK typeofStatus typeofEmsg).2)
  else if t = NapiValueType.napi_number then (true, none)
  else (false, some (NapiThrowError "Argument is not a string!".toList))

/-- Models `EnsureValueIsLessThan` (utils.h lines 196-205) on `uint32_t`
arguments (modelled as `Nat`; the C comparison agrees with the `Nat`
comparison on values below 2^32, and the model places no upper bound). -/
def EnsureValueIsLessThan (value max : Nat) : Bool × Option (List Char) :=
  if value > max then
    (false, some (NapiThrowError ("Argument is greater than max: ".toList ++
      natDecimal value ++ " > ".toList ++ natDecimal max)))
  else (true, none)

/-- Models `EnsureConstructorCall` (utils.h lines 98-109).  `nstatus` and
`emsg` model the `napi_get_new_target` boundary call; `newTarget` is the
`js_target` it produces (`none` models a null pointer, i.e. the entry point
was not invoked with construction semantics). -/
def EnsureConstructorCall (nstatus : Nat) (emsg : Option (List Char))
    (newTarget : Option Unit) : Bool × Option (List Char) :=
  if (EnsureNapiOK nstatus emsg).1 = false then
    (false, (EnsureNapiOK nstatus emsg).2)
  else if newTarget.isSome then (true, none)
  else (false, some (NapiThrowError "Function not used as a constructor!".toList))

/-- Models the `ENSURE_CONSTRUCTOR_CALL` macro guard (utils.h lines 93-96)
around an entry-point body: when `EnsureConstructorCall` fails the entry
point returns immediately, so none of the body's resource allocations
(abstracted as the list `allocations`) are performed. -/
def GuardedConstructorBody (nstatus : Nat) (emsg : Option (List Char))
    (newTarget : Option Unit) (allocations : List String) : List String :=
  if (EnsureConstructorCall nstatus emsg newTarget).1 then allocations else []

/-- Segment containment: `needle` occurs contiguously inside `hay`. -/
def containsSeg (hay needle : List Char) : Prop :=
  ∃ s u, hay = s ++ needle ++ u

/-- Boolean version of `containsSeg`, used to decide concrete instances. -/
def containsSegB (hay needle : List Char) : Bool :=
  (List.range (hay.length + 1)).any
    (fun i => (hay.drop i).take needle.length = needle)

/-- Models `EnsureValueIsNotNull` (utils.h lines 269-276): `isNull` is
whether the checked pointer is null. -/
def EnsureValueIsNotNull (isNull : Bool) : Bool × Option (List Char) :=
  if isNull then (false, some (NapiThrowError "Argument is null!".toList))
  else (true, none)

/-- Result of a call to `GetStringParam`: the returned `napi_status`, the
message thrown (if any), the size of the `malloc`-ed temporary buffer (if
the allocation was reached), whether `free` was called on that buffer
before returning, and the string produced into the out-parameter. -/
structure GetStringParamResult where
  status : Nat
  thrown : Option (List Char)
  allocated : Option Nat
  freed : Bool
  output : Option (List Char)
deriving DecidableEq

/-- Models `GetStringParam` (utils.h lines 278-299).  Parameters model the
boundary calls in source order: `vtype` is the `napi_typeof` result inside
`ENSURE_VALUE_IS_STRING_RETVAL` (whose `napi_typeof` is assumed to succeed);
`lenStatus`/`lenEmsg` the first `napi_get_value_string_utf8` call (length
query) producing `str_length` on success; `mallocOk` whether `malloc`
returns a non-null buffer; `copyStatus`/`copyEmsg` the second
`napi_get_value_string_utf8` call, which copies `content` into the buffer
on success.  `napi_invalid_arg` is status 1 and `napi_generic_failure` is
status 9. -/
def GetStringParam (vtype : NapiValueType) (lenStatus : Nat)
    (lenEmsg : Option (List Char)) (str_length : Nat) (mallocOk : Bool)
    (copyStatus : Nat) (copyEmsg : Option (List Char)) (content : List Char) :
    GetStringParamResult :=
  if (EnsureValueIsString 0 none vtype).1 = false then
    ⟨1, (EnsureValueIsString 0 none vtype).2, none, false, none⟩
  else if (EnsureNapiOK lenStatus lenEmsg).1 = false then
    ⟨lenStatus, (EnsureNapiOK lenStatus lenEmsg).2, none, false, none⟩
  else if (EnsureValueIsNotNull (!mallocOk)).1 = false then
    ⟨9, (EnsureValueIsNotNull (!mallocOk)).2, none, false, none⟩
  else if (EnsureNapiOK copyStatus copyEmsg).1 = false then
    ⟨copyStatus, (EnsureNapiOK copyStatus copyEmsg).2, some (str_length + 1),
      false, none⟩
  else ⟨0, none, some (str_length + 1), true, some content⟩

/-- Wrap an integer into the signed 64-bit range, modelling two's-complement
`int64_t` arithmetic. -/
def int64Wrap (x : Int) : Int := (x + 2 ^ 63) % 2 ^ 64 - 2 ^ 63

/-- Model of a `TF_Tensor`: its dimensions (as `int64_t` values) and the
`int32_t` values in its data buffer. -/
structure TF_Tensor where
  dims : List Int
  data : List Int
deriving DecidableEq

/-- Models `TF_NewTensor` for the `TF_INT32` case: the runtime records the
given dimensions and takes ownership of the supplied value buffer. -/
def TF_NewTensor (dims : List Int) (buffer : List Int) : TF_Tensor :=
  ⟨dims, buffer⟩

/-- Models `GetTensorNumElements` (utils.h lines 302-308): a `size_t`
accumulator starting at 1 is multiplied by each `TF_Dim` (an `int64_t`,
converted to `size_t` modulo 2^64, with the product reduced modulo 2^64). -/
def GetTensorNumElements (tensor : TF_Tensor) : Nat :=
  tensor.dims.foldl (fun ret d => ret * (d % 2 ^ 64).toNat % 2 ^ 64) 1

/-- Models `Int32Tensor(const int64_t* dims, int num_dims, const int32_t*
values)` (utils.h lines 314-324): `num_values` is the `int64_t` product of
the dimensions (wrapping on overflow), `TF_AllocateTensor` records the
dimensions, and `memcpy` copies the first `num_values` entries of the
`values` buffer (modelled as a function from offsets to `int32_t` values)
into the tensor's data. -/
def Int32Tensor (dims : List Int) (values : Nat → Int) : TF_Tensor :=
  let num_values : Int := dims.foldl (fun acc d => int64Wrap (acc * d)) 1
  { dims := dims, data := (List.range num_values.toNat).map values }

/-- Models the scalar overload `Int32Tensor(int32_t v)` (utils.h lines
331-337): a one-element heap buffer holding `v` is handed to `TF_NewTensor`
with zero dimensions. -/
def Int32TensorScalar (v : Int) : TF_Tensor :=
  TF_NewTensor [] [v]

/-- Models the loop of `ExtractArrayShape` (utils.h lines 244-254): each
array slot is the result of the `napi_get_element` plus
`napi_get_value_int64` pipeline (`none` when either boundary call fails for
that slot, `some d` when the element coerces to the `int64_t` `d`).  The
loop pushes each coerced value onto `result` and aborts at the first
failing slot, leaving `result` as filled so far.  The boolean records
whether the loop completed. -/
def ExtractArrayShapeLoop : List (Option Int) → List Int → List Int × Bool
  | [], result => (result, true)
  | none :: _, result => (result, false)
  | some d :: rest, result => ExtractArrayShapeLoop rest (result ++ [d])

/-- Models `ExtractArrayShape` (utils.h lines 236-255): `lenOk` is whether
the initial `napi_get_array_length` boundary call succeeds (on failure the
function aborts with `result` untouched); `arr` holds one slot per array
element as in `ExtractArrayShapeLoop`. -/
def ExtractArrayShape (lenOk : Bool) (arr : List (Option Int))
    (result : List Int) : List Int × Bool :=
  if lenOk then ExtractArrayShapeLoop arr result else (result, false)

/-- Models `strFindComma`, i.e. the two lines `pos = str.find(',', prev);
if (pos == std::string::npos) pos = str.length();` of `split` (utils.h
lines 400-401): the index of the first comma at or after `prev`, or the
string's length when there is none. -/
def strFindComma (str : List Char) (prev : Nat) : Nat :=
  match (str.drop prev).findIdx? (fun c => c = ',') with
  | some k => prev + k
  | none => str.length

/-- Models lines 402-403 of `split` (utils.h): the token
`str.substr(prev, pos - prev)` of the current iteration, pushed onto the
output only when non-empty. -/
def splitTokenList (str : List Char) (prev : Nat) : List (List Char) :=
  if (str.drop prev).take (strFindComma str prev - prev) = [] then []
  else [(str.drop prev).take (strFindComma str prev - prev)]

/-- Models the do-while loop of `split` (utils.h lines 399-405), starting an
iteration with the given `prev`: compute `pos`, emit the current token if
non-empty, and loop while `pos < str.length() && prev < str.length()` (with
`prev` already advanced to `pos + 1`). -/
def splitLoop (str : List Char) (prev : Nat) : List (List Char) :=
  if strFindComma str prev < str.length ∧ strFindComma str prev + 1 < str.length
  then splitTokenList str prev ++ splitLoop str (strFindComma str prev + 1)
  else splitTokenList str prev
termination_by str.length - prev
decreasing_by
  rename_i h
  have hcases : prev ≤ strFindComma str prev ∨ strFindComma str prev = str.length := by
    unfold strFindComma
    cases (str.drop prev).findIdx? (fun c => c = ',')
    · exact Or.inr rfl
    · exact Or.inl (Nat.le_add_right _ _)
  omega

/-- Models `split` (utils.h lines 396-407): tokenize `str` at commas,
discarding empty tokens. -/
def split (str : List Char) : List (List Char) :=
  splitLoop str 0

/-! ## Helper lemmas -/

lemma containsSeg_iff (hay needle : List Char) :
    containsSegB hay needle = true ↔ containsSeg hay needle := by
  constructor
  · intro h
    rcases List.any_eq_true.mp h with ⟨i, _, hpre⟩
    have htake : (hay.drop i).take needle.length = needle := by simpa using hpre
    refine ⟨hay.take i, (hay.drop i).drop needle.length, ?_⟩
    conv_lhs => rw [← List.take_append_drop i hay]
    rw [List.append_assoc]
    congr 1
    nth_rewrite 1 [← htake]
    exact (List.take_append_drop _ _).symm
  · rintro ⟨s, u, rfl⟩
    apply List.any_eq_true.mpr
    refine ⟨s.length, ?_, ?_⟩
    · apply List.mem_range.mpr
      simp only [List.length_append]
      omega
    · rw [List.append_assoc, List.drop_left]
      simp [List.take_left]

lemma containsSeg_length_le {hay needle : List Char} (h : containsSeg hay needle) :
    needle.length ≤ hay.length := by
  rcases h with ⟨s, u, rfl⟩
  simp only [List.length_append]
  omega

lemma length_decimalRevDigitsAux_le :
    ∀ (fuel : Nat) {n k : Nat}, n < 10 ^ k →
      (decimalRevDigitsAux fuel n).length ≤ k := by
  intro fuel
  induction fuel with
  | zero =>
    intro n k _
    cases n <;> simp [decimalRevDigitsAux]
  | succ fuel ih =>
    intro n k hn
    match n with
    | 0 => simp [decimalRevDigitsAux]
    | m + 1 =>
      match k with
      | 0 => rw [pow_zero] at hn; omega
      | k + 1 =>
        rw [decimalRevDigitsAux]
        simp only [List.length_cons]
        have hdiv : (m + 1) / 10 < 10 ^ k := by
          rw [Nat.div_lt_iff_lt_mul (by norm_num)]
          calc m + 1 < 10 ^ (k + 1) := hn
          _ = 10 ^ k * 10 := by ring
        exact Nat.succ_le_succ (ih hdiv)

lemma length_decimalRevDigits_le {n k : Nat} (hn : n < 10 ^ k) :
    (decimalRevDigits n).length ≤ k :=
  length_decimalRevDigitsAux_le n hn

lemma length_natDecimal_le {n k : Nat} (hn : n < 10 ^ k) (hk : 1 ≤ k) :
    (natDecimal n).length ≤ k := by
  unfold natDecimal
  split
  · simpa using hk
  · rw [List.length_reverse]
    exact length_decimalRevDigits_le hn

lemma length_natDecimal_le_ten {n : Nat} (hn : n < 2 ^ 32) :
    (natDecimal n).length ≤ 10 :=
  length_natDecimal_le (lt_trans hn (by norm_num)) (by norm_num)

lemma ensureTFOK_thrown_structure (tf_code : Nat) (tf_message : List Char)
    (h0 : tf_code ≠ 0) (hcode : tf_code < 2 ^ 32) :
    ∃ k, (EnsureTFOK tf_code tf_message).2 =
      some ("Invalid TF_Status: ".toList ++ natDecimal tf_code ++
        "\nMessage: ".toList ++ tf_message.take k)
    ∧ (("Invalid TF_Status: ".toList ++ natDecimal tf_code ++
        "\nMessage: ".toList ++ tf_message).length ≤ 499 →
          tf_message.take k = tf_message) := by
  have hhdr : ("Invalid TF_Status: ".toList).length = 19 := by decide
  have hmid : ("\nMessage: ".toList).length = 10 := by decide
  have hnd := length_natDecimal_le_ten hcode
  have hpre : ("Invalid TF_Status: ".toList ++ natDecimal tf_code ++
      "\nMessage: ".toList).length ≤ 39 := by
    simp only [List.length_append, hhdr, hmid]
    omega
  refine ⟨499 - ("Invalid TF_Status: ".toList ++ natDecimal tf_code ++
      "\nMessage: ".toList).length, ?_, ?_⟩
  · unfold EnsureTFOK NapiThrowError
    rw [if_pos h0]
    rw [show ("Invalid TF_Status: ".toList ++ natDecimal tf_code ++
        "\nMessage: ".toList ++ tf_message) =
      (("Invalid TF_Status: ".toList ++ natDecimal tf_code ++
        "\nMessage: ".toList) ++ tf_message) by simp [List.append_assoc]]
    rw [List.take_append_eq_append_take,
      List.take_of_length_le (le_trans hpre (by norm_num))]
  · intro hlen
    apply List.take_of_length_le
    simp only [List.length_append] at hlen hpre ⊢
    omega

/-! ## Status translator claims -/

/-- C3 counterexample: the boundary-call translator `EnsureNapiOK` does not
follow the claimed uniform format.  At the concrete non-success status 1
with last-error message "boom", the raised message is
"Invalid napi_status: boom\n", which contains neither a "Message:" line nor
the numeric status code. -/
theorem ensureNapiOK_format_counterexample :
    (EnsureNapiOK 1 (some ("boom".toList))).1 = false
    ∧ (EnsureNapiOK 1 (some ("boom".toList))).2 =
        some ("Invalid napi_status: boom\n".toList)
    ∧ ¬ containsSeg ("Invalid napi_status: boom\n".toList) ("Message:".toList)
    ∧ ¬ containsSeg ("Invalid napi_status: boom\n".toList) (natDecimal 1) := by
  refine ⟨by decide, by decide, ?_, ?_⟩
  · intro h
    exact absurd ((containsSeg_iff _ _).mpr h) (by decide)
  · intro h
    exact absurd ((containsSeg_iff _ _).mpr h) (by decide)

/-- C3 (amended): the two status translators raise messages naming their own
status kind, but only `EnsureTFOK` follows the format
"Invalid TF_Status: <code>\nMessage: <message>"; `EnsureNapiOK` raises
"Invalid napi_status: <last-error-message>\n", whose text does not depend on
the numeric status code and carries no "Message:" line of its own. -/
theorem statusTranslators_message_formats (status s2 : Nat) (em : List Char)
    (tf_code : Nat) (tf_message : List Char) :
    (status ≠ 0 → ∃ t, (EnsureNapiOK status (some em)).2 = some t
      ∧ containsSeg t ("Invalid napi_status: ".toList)
      ∧ (s2 ≠ 0 →
          (EnsureNapiOK s2 (some em)).2 = (EnsureNapiOK status (some em)).2))
    ∧ (tf_code ≠ 0 → tf_code < 2 ^ 32 →
      ∃ t, (EnsureTFOK tf_code tf_message).2 = some t
      ∧ containsSeg t ("Invalid TF_Status: ".toList)
      ∧ containsSeg t (natDecimal tf_code)
      ∧ containsSeg t ("Message: ".toList)) := by
  constructor
  · intro h0
    have he : (EnsureNapiOK status (some em)).2 = some (NapiThrowError
        ("Invalid napi_status: ".toList ++ em ++ "\n".toList)) := by
      unfold EnsureNapiOK
      rw [if_pos h0]
      rfl
    refine ⟨_, he, ?_, ?_⟩
    · unfold NapiThrowError
      rw [List.append_assoc, List.take_append_eq_append_take,
        List.take_of_length_le (by decide :
          ("Invalid napi_status: ".toList).length ≤ 499)]
      exact ⟨[], (em ++ "\n".toList).take
        (499 - ("Invalid napi_status: ".toList).length), by simp⟩
    · intro hs2
      unfold EnsureNapiOK
      rw [if_pos hs2, if_pos h0]
  · intro h0 hcode
    obtain ⟨k, hk, _⟩ := ensureTFOK_thrown_structure tf_code tf_message h0 hcode
    have hmid : ("\nMessage: ".toList) = '\n' :: "Message: ".toList := by decide
    exact ⟨_, hk,
      ⟨[], natDecimal tf_code ++ ("\nMessage: ".toList ++ tf_message.take k),
        by simp [List.append_assoc]⟩,
      ⟨"Invalid TF_Status: ".toList,
        "\nMessage: ".toList ++ tf_message.take k,
        by simp [List.append_assoc]⟩,
      ⟨"Invalid TF_Status: ".toList ++ natDecimal tf_code ++ ['\n'],
        tf_message.take k, by simp [List.append_assoc, hmid]⟩⟩

/-- Witness for C3 at concrete statuses. -/
theorem statusTranslators_message_formats_witness :
    (∃ t, (EnsureNapiOK 1 (some ("boom".toList))).2 = some t
      ∧ containsSeg t ("Invalid napi_status: ".toList)
      ∧ (2 ≠ 0 → (EnsureNapiOK 2 (some ("boom".toList))).2 =
          (EnsureNapiOK 1 (some ("boom".toList))).2))
    ∧ (∃ t, (EnsureTFOK 3 ("oops".toList)).2 = some t
      ∧ containsSeg t ("Invalid TF_Status: ".toList)
      ∧ containsSeg t (natDecimal 3)
      ∧ containsSeg t ("Message: ".toList)) :=
  ⟨(statusTranslators_message_formats 1 2 ("boom".toList) 3 ("oops".toList)).1
      (by decide),
   (statusTranslators_message_formats 1 2 ("boom".toList) 3 ("oops".toList)).2
      (by decide) (by decide)⟩

/-- C4 counterexample: the claim fails for a runtime message longer than the
500-byte formatting buffer.  With code 3 and a 600-character message, the
raised message is truncated to 499 characters and cannot contain the
message text. -/
theorem ensureTFOK_truncation_counterexample :
    (EnsureTFOK 3 (List.replicate 600 (Char.ofNat 97))).1 = false
    ∧ ∀ t, (EnsureTFOK 3 (List.replicate 600 (Char.ofNat 97))).2 = some t →
        ¬ containsSeg t (List.replicate 600 (Char.ofNat 97)) := by
  refine ⟨by decide, ?_⟩
  intro t ht hc
  have hle := containsSeg_length_le hc
  unfold EnsureTFOK NapiThrowError at ht
  rw [if_pos (by norm_num)] at ht
  have ht2 : some (("Invalid TF_Status: ".toList ++ natDecimal 3 ++
      "\nMessage: ".toList ++ List.replicate 600 (Char.ofNat 97)).take 499)
        = some t := ht
  obtain rfl := (Option.some.inj ht2).symm
  have h1 : ("Invalid TF_Status: ".toList).length = 19 := by decide
  have h2 : (natDecimal 3).length = 1 := by decide
  have h3 : ("\nMessage: ".toList).length = 10 := by decide
  simp only [List.length_take, List.length_append, List.length_replicate,
    h1, h2, h3] at hle
  omega

/-- C4 (amended): for every non-OK native-runtime status, `EnsureTFOK`
returns false and raises a message containing the numeric status code; when
the formatted message fits within the 500-byte buffer it also contains the
runtime's message text (otherwise that text is truncated).  An OK status
returns true and raises nothing. -/
theorem ensureTFOK_spec (tf_code : Nat) (tf_message : List Char)
    (hcode : tf_code < 2 ^ 32) :
    (tf_code ≠ 0 →
      (EnsureTFOK tf_code tf_message).1 = false
      ∧ ∃ t, (EnsureTFOK tf_code tf_message).2 = some t
        ∧ containsSeg t (natDecimal tf_code)
        ∧ (("Invalid TF_Status: ".toList ++ natDecimal tf_code ++
            "\nMessage: ".toList ++ tf_message).length ≤ 499 →
              containsSeg t tf_message))
    ∧ (tf_code = 0 → EnsureTFOK tf_code tf_message = (true, none)) := by
  constructor
  · intro h0
    constructor
    · unfold EnsureTFOK
      rw [if_pos h0]
    · obtain ⟨k, hk, htrunc⟩ :=
        ensureTFOK_thrown_structure tf_code tf_message h0 hcode
      refine ⟨_, hk,
        ⟨"Invalid TF_Status: ".toList, "\nMessage: ".toList ++ tf_message.take k,
          by simp [List.append_assoc]⟩, ?_⟩
      intro hlen
      refine ⟨"Invalid TF_Status: ".toList ++ natDecimal tf_code ++
        "\nMessage: ".toList, [], ?_⟩
      rw [htrunc hlen]
      simp [List.append_assoc]
  · intro h0
    unfold EnsureTFOK
    rw [if_neg (by omega)]

/-- Witness for C4 at a concrete status. -/
theorem ensureTFOK_spec_witness :
    ((EnsureTFOK 3 ("oops".toList)).1 = false
      ∧ ∃ t, (EnsureTFOK 3 ("oops".toList)).2 = some t
        ∧ containsSeg t (natDecimal 3)
        ∧ (("Invalid TF_Status: ".toList ++ natDecimal 3 ++
            "\nMessage: ".toList ++ "oops".toList).length ≤ 499 →
              containsSeg t ("oops".toList)))
    ∧ EnsureTFOK 0 ("fine".toList) = (true, none) :=
  ⟨(ensureTFOK_spec 3 ("oops".toList) (by norm_num)).1 (by decide),
   (ensureTFOK_spec 0 ("fine".toList) (by norm_num)).2 rfl⟩

/-! ## Validator and helper claims -/

/-- C5: a rank-0 scalar integer tensor has exactly 1 element (the empty
dimension product of `GetTensorNumElements` is 1) and that element is the
input value. -/
theorem int32TensorScalar_spec (v : Int) :
    GetTensorNumElements (Int32TensorScalar v) = 1
    ∧ (Int32TensorScalar v).data = [v] :=
  ⟨rfl, rfl⟩

/-- C6: `EnsureValueIsLessThan` raises a range failure and returns false
exactly when `value` is strictly greater than `max`; otherwise it returns
true with no raised error. -/
theorem ensureValueIsLessThan_spec (value max : Nat) :
    (((EnsureValueIsLessThan value max).1 = false
      ∧ (EnsureValueIsLessThan value max).2.isSome = true) ↔ value > max)
    ∧ (EnsureValueIsLessThan value max = (true, none) ↔ value ≤ max) := by
  by_cases h : value > max
  all_goals simp [EnsureValueIsLessThan, h]
  all_goals omega

/-- C7: invoking a constructor-style entry point without `new.target`
present makes `EnsureConstructorCall` raise the constructor-misuse message
and return false, so the guarded entry point performs none of its
allocations; with construction semantics present it returns true without
raising and the body runs. -/
theorem ensureConstructorCall_spec (newTarget : Option Unit)
    (allocations : List String) :
    (newTarget = none →
      EnsureConstructorCall 0 none newTarget =
        (false, some ("Function not used as a constructor!".toList))
      ∧ GuardedConstructorBody 0 none newTarget allocations = [])
    ∧ (newTarget.isSome = true →
      EnsureConstructorCall 0 none newTarget = (true, none)
      ∧ GuardedConstructorBody 0 none newTarget allocations = allocations) := by
  constructor
  · rintro rfl
    have h1 : EnsureConstructorCall 0 none none =
        (false, some ("Function not used as a constructor!".toList)) := by decide
    exact ⟨h1, by simp [GuardedConstructorBody, h1]⟩
  · intro h
    obtain ⟨u, rfl⟩ := Option.isSome_iff_exists.mp h
    cases u
    have h1 : EnsureConstructorCall 0 none (some ()) = (true, none) := by decide
    exact ⟨h1, by simp [GuardedConstructorBody, h1]⟩

/-- Witness for C7 at concrete inputs. -/
theorem ensureConstructorCall_spec_witness :
    (EnsureConstructorCall 0 none none =
      (false, some ("Function not used as a constructor!".toList))
      ∧ GuardedConstructorBody 0 none none ["tensor-buffer"] = [])
    ∧ (EnsureConstructorCall 0 none (some ()) = (true, none)
      ∧ GuardedConstructorBody 0 none (some ()) ["tensor-buffer"]
          = ["tensor-buffer"]) :=
  ⟨(ensureConstructorCall_spec none ["tensor-buffer"]).1 rfl,
   (ensureConstructorCall_spec (some ()) ["tensor-buffer"]).2 rfl⟩

/-- C8 (code-bug evidence): when the second `napi_get_value_string_utf8`
call fails after the temporary buffer has been allocated, `GetStringParam`
returns that failure status without calling `free`, leaking the buffer —
contradicting the claim that the buffer is released on every failure path.
The success path allocates `str_length + 1` bytes and does free them. -/
theorem getStringParam_leak :
    GetStringParam NapiValueType.napi_string 0 none 3 true 9 none ("abc".toList)
      = ⟨9, some ("Invalid napi_status: unknown\n".toList), some 4, false, none⟩
    ∧ GetStringParam NapiValueType.napi_string 0 none 3 true 0 none ("abc".toList)
      = ⟨0, none, some 4, true, some ("abc".toList)⟩ := by
  exact ⟨by decide, by decide⟩

/-- C9 (code-bug evidence): `EnsureValueIsNumber`, rejecting a boolean-typed
value, raises the message "Argument is not a string!" — the string
validator's message, not one describing the number constraint. -/
theorem ensureValueIsNumber_wrong_message :
    (EnsureValueIsNumber 0 none NapiValueType.napi_boolean).1 = false
    ∧ (EnsureValueIsNumber 0 none NapiValueType.napi_boolean).2
        = some ("Argument is not a string!".toList)
    ∧ (EnsureValueIsNumber 0 none NapiValueType.napi_boolean).2
        = (EnsureValueIsString 0 none NapiValueType.napi_boolean).2 := by
  exact ⟨by decide, by decide, by decide⟩

/-! ## Integer tensor construction (C1) -/

lemma int64Wrap_eq_self {x : Int} (h1 : 0 ≤ x) (h2 : x < 2 ^ 63) :
    int64Wrap x = x := by
  unfold int64Wrap
  omega

lemma foldlWrap_zero (l : List Int) :
    l.foldl (fun acc d => int64Wrap (acc * d)) 0 = 0 := by
  induction l with
  | nil => rfl
  | cons d rest ih =>
    have h0 : int64Wrap (0 * d) = 0 := by
      rw [zero_mul]
      unfold int64Wrap
      decide
    simp only [List.foldl_cons, h0]
    exact ih

lemma foldlWrap_mem_zero :
    ∀ (l : List Int), (0 : Int) ∈ l → ∀ acc : Int,
      l.foldl (fun acc d => int64Wrap (acc * d)) acc = 0 := by
  intro l
  induction l with
  | nil => intro h; simp at h
  | cons d rest ih =>
    intro h acc
    simp only [List.foldl_cons]
    rcases List.mem_cons.mp h with h1 | h1
    · rw [← h1, mul_zero, show int64Wrap 0 = 0 from by decide]
      exact foldlWrap_zero rest
    · exact ih h1 _

lemma foldlWrap_pos :
    ∀ (l : List Int), (∀ d ∈ l, 1 ≤ d) → ∀ acc : Int, 0 ≤ acc →
      acc * l.prod < 2 ^ 63 →
      l.foldl (fun acc d => int64Wrap (acc * d)) acc = acc * l.prod := by
  intro l
  induction l with
  | nil => intro _ acc _ _; simp
  | cons d rest ih =>
    intro hpos acc hacc hbound
    have hd : (1 : Int) ≤ d := hpos d (List.mem_cons_self d rest)
    have hrest : ∀ x ∈ rest, (1 : Int) ≤ x :=
      fun x hx => hpos x (List.mem_cons_of_mem _ hx)
    have hprest : (1 : Int) ≤ rest.prod := List.one_le_prod hrest
    have hadnn : 0 ≤ acc * d := mul_nonneg hacc (le_trans zero_le_one hd)
    have hbound2 : acc * d * rest.prod < 2 ^ 63 := by
      rw [List.prod_cons] at hbound
      calc acc * d * rest.prod = acc * (d * rest.prod) := by ring
      _ < 2 ^ 63 := hbound
    have hadlt : acc * d < 2 ^ 63 :=
      lt_of_le_of_lt (le_mul_of_one_le_right hadnn hprest) hbound2
    simp only [List.foldl_cons]
    rw [int64Wrap_eq_self hadnn hadlt, ih hrest (acc * d) hadnn hbound2,
      List.prod_cons]
    ring

lemma prod_toNat_eq :
    ∀ (l : List Int), (∀ d ∈ l, 0 ≤ d) →
      l.prod = ((l.map Int.toNat).prod : Int) := by
  intro l
  induction l with
  | nil => intro _; simp
  | cons d rest ih =>
    intro h
    rw [List.prod_cons, List.map_cons, List.prod_cons, Nat.cast_mul,
      Int.toNat_of_nonneg (h d (List.mem_cons_self d rest)),
      ih (fun x hx => h x (List.mem_cons_of_mem _ hx))]

lemma natProd_pos :
    ∀ (l : List Nat), (∀ x ∈ l, 1 ≤ x) → 1 ≤ l.prod := by
  intro l
  induction l with
  | nil => intro _; simp
  | cons d rest ih =>
    intro h
    rw [List.prod_cons]
    exact Nat.mul_pos (h d (List.mem_cons_self d rest))
      (ih (fun x hx => h x (List.mem_cons_of_mem _ hx)))

lemma natFold_zero (l : List Int) :
    l.foldl (fun ret d => ret * (d % 2 ^ 64).toNat % 2 ^ 64) 0 = 0 := by
  induction l with
  | nil => rfl
  | cons d rest ih =>
    simp only [List.foldl_cons, Nat.zero_mul, Nat.zero_mod]
    exact ih

lemma natFold_mem_zero :
    ∀ (l : List Int), (0 : Int) ∈ l → ∀ acc : Nat,
      l.foldl (fun ret d => ret * (d % 2 ^ 64).toNat % 2 ^ 64) acc = 0 := by
  intro l
  induction l with
  | nil => intro h; simp at h
  | cons d rest ih =>
    intro h acc
    simp only [List.foldl_cons]
    rcases List.mem_cons.mp h with h1 | h1
    · rw [← h1]
      simp only [Int.zero_emod, Int.toNat_zero, Nat.mul_zero, Nat.zero_mod]
      exact natFold_zero rest
    · exact ih h1 _

lemma natFold_pos :
    ∀ (l : List Int), (∀ d ∈ l, 1 ≤ d) → ∀ acc : Nat, 1 ≤ acc →
      acc * (l.map Int.toNat).prod < 2 ^ 64 →
      l.foldl (fun ret d => ret * (d % 2 ^ 64).toNat % 2 ^ 64) acc
        = acc * (l.map Int.toNat).prod := by
  intro l
  induction l with
  | nil => intro _ acc _ _; simp
  | cons d rest ih =>
    intro hpos acc hacc hbound
    have hd : (1 : Int) ≤ d := hpos d (List.mem_cons_self d rest)
    have hrest : ∀ x ∈ rest, (1 : Int) ≤ x :=
      fun x hx => hpos x (List.mem_cons_of_mem _ hx)
    have hdN : 1 ≤ d.toNat := by omega
    have hprest : 1 ≤ (rest.map Int.toNat).prod := by
      apply natProd_pos
      intro x hx
      rcases List.mem_map.mp hx with ⟨y, hy, rfl⟩
      have := hrest y hy
      omega
    have hmap : ((d :: rest).map Int.toNat).prod
        = d.toNat * (rest.map Int.toNat).prod := by
      rw [List.map_cons, List.prod_cons]
    rw [hmap] at hbound
    have hadbound : acc * d.toNat < 2 ^ 64 := by
      calc acc * d.toNat ≤ acc * d.toNat * (rest.map Int.toNat).prod :=
            Nat.le_mul_of_pos_right _ hprest
      _ = acc * (d.toNat * (rest.map Int.toNat).prod) := by ring
      _ < 2 ^ 64 := hbound
    have hdlt : d.toNat < 2 ^ 64 := by
      have h1 : d.toNat ≤ d.toNat * (rest.map Int.toNat).prod :=
        Nat.le_mul_of_pos_right _ hprest
      have h2 : d.toNat * (rest.map Int.toNat).prod
          ≤ acc * (d.toNat * (rest.map Int.toNat).prod) :=
        Nat.le_mul_of_pos_left _ hacc
      omega
    have hmod : ((d % 2 ^ 64 : Int)).toNat = d.toNat := by
      rw [Int.emod_eq_of_lt (by omega) (by omega)]
    simp only [List.foldl_cons]
    rw [hmod, Nat.mod_eq_of_lt hadbound,
      ih hrest (acc * d.toNat) (Nat.mul_pos hacc hdN) (by rw [mul_assoc]; exact hbound),
      hmap]
    ring

/-- C1: constructing an integer tensor from non-negative dimensions whose
element product P is representable exposes exactly P elements (as computed
by `GetTensorNumElements`) and copies the first P supplied values in order;
in particular a zero dimension yields a zero-element tensor, and the
construction raises nothing (the model has no failure channel). -/
theorem int32Tensor_spec (dims : List Int) (values : Nat → Int)
    (hpos : ∀ d ∈ dims, 0 ≤ d)
    (hbound : (dims.map Int.toNat).prod < 2 ^ 63) :
    GetTensorNumElements (Int32Tensor dims values) = (dims.map Int.toNat).prod
    ∧ (Int32Tensor dims values).data
        = (List.range ((dims.map Int.toNat).prod)).map values
    ∧ ((0 : Int) ∈ dims → GetTensorNumElements (Int32Tensor dims values) = 0) := by
  by_cases h0 : (0 : Int) ∈ dims
  · have hP : (dims.map Int.toNat).prod = 0 :=
      List.prod_eq_zero (List.mem_map.mpr ⟨0, h0, rfl⟩)
    have hnum : dims.foldl (fun acc d => int64Wrap (acc * d)) 1 = 0 :=
      foldlWrap_mem_zero dims h0 1
    have hGet : GetTensorNumElements (Int32Tensor dims values) = 0 :=
      natFold_mem_zero dims h0 1
    refine ⟨by rw [hGet, hP], ?_, fun _ => hGet⟩
    show (List.range (dims.foldl (fun acc d => int64Wrap (acc * d)) 1).toNat).map
      values = _
    rw [hnum, hP]
    rfl
  · have hpos1 : ∀ d ∈ dims, (1 : Int) ≤ d := by
      intro d hd
      have hge := hpos d hd
      have hne : d ≠ 0 := fun h => h0 (h ▸ hd)
      omega
    have hprodeq : dims.prod = ((dims.map Int.toNat).prod : Int) :=
      prod_toNat_eq dims hpos
    have hboundInt : (1 : Int) * dims.prod < 2 ^ 63 := by
      rw [one_mul, hprodeq]
      exact_mod_cast hbound
    have hnum : dims.foldl (fun acc d => int64Wrap (acc * d)) 1
        = ((dims.map Int.toNat).prod : Int) := by
      rw [foldlWrap_pos dims hpos1 1 zero_le_one hboundInt, one_mul, hprodeq]
    have hGet : GetTensorNumElements (Int32Tensor dims values)
        = (dims.map Int.toNat).prod := by
      have h := natFold_pos dims hpos1 1 le_rfl (by rw [one_mul]; omega)
      rwa [one_mul] at h
    refine ⟨hGet, ?_, fun hmem => absurd hmem h0⟩
    show (List.range (dims.foldl (fun acc d => int64Wrap (acc * d)) 1).toNat).map
      values = _
    rw [hnum, Int.toNat_natCast]

/-- Witness for C1 at a concrete shape (including a zero dimension). -/
theorem int32Tensor_spec_witness :
    GetTensorNumElements (Int32Tensor [2, 3] (fun i => (i : Int))) = 6
    ∧ (Int32Tensor [2, 3] (fun i => (i : Int))).data = [0, 1, 2, 3, 4, 5]
    ∧ GetTensorNumElements (Int32Tensor [2, 0, 3] (fun i => (i : Int))) = 0 := by
  refine ⟨?_, ?_, ?_⟩
  · have h := (int32Tensor_spec [2, 3] (fun i => (i : Int))
      (by decide) (by decide)).1
    rw [h]
    decide
  · have h := (int32Tensor_spec [2, 3] (fun i => (i : Int))
      (by decide) (by decide)).2.1
    rw [h]
    decide
  · exact (int32Tensor_spec [2, 0, 3] (fun i => (i : Int))
      (by decide) (by decide)).2.2 (by decide)

/-! ## Shape extraction (C2) -/

lemma extractArrayShapeLoop_eq :
    ∀ (arr : List (Option Int)) (result : List Int),
      ExtractArrayShapeLoop arr result =
        (result ++ (arr.takeWhile Option.isSome).filterMap id,
          arr.all Option.isSome) := by
  intro arr
  induction arr with
  | nil => intro result; simp [ExtractArrayShapeLoop]
  | cons a rest ih =>
    intro result
    cases a with
    | none => simp [ExtractArrayShapeLoop]
    | some d =>
      simp only [ExtractArrayShapeLoop, ih, List.takeWhile_cons, List.all_cons]
      simp [List.filterMap_cons, List.append_assoc]

lemma takeWhile_isSome_upto_none (pre : List Int) (post : List (Option Int)) :
    ((pre.map some ++ none :: post).takeWhile Option.isSome) = pre.map some
    ∧ ((pre.map some ++ none :: post).all Option.isSome) = false := by
  induction pre with
  | nil => simp
  | cons v rest ih => simp [List.takeWhile_cons, ih]

/-- C2: `ExtractArrayShape` on a successfully measured array produces the
coerced prefix of the array up to the first failing slot, and completes
exactly when every slot converts; when every element converts the output
has the array's length with the coerced elements in order; at a failing
slot the output holds exactly the elements extracted before the failure;
and a failing length query aborts with nothing extracted. -/
theorem extractArrayShape_spec (arr : List (Option Int)) :
    (ExtractArrayShape true arr []).1
        = (arr.takeWhile Option.isSome).filterMap id
    ∧ ((ExtractArrayShape true arr []).2 = true ↔ arr.all Option.isSome = true)
    ∧ (∀ vals : List Int, arr = vals.map some →
        ExtractArrayShape true arr [] = (vals, true)
        ∧ vals.length = arr.length)
    ∧ (∀ (pre : List Int) (post : List (Option Int)),
        arr = pre.map some ++ none :: post →
        ExtractArrayShape true arr [] = (pre, false))
    ∧ ExtractArrayShape false arr [] = ([], false) := by
  have hloop := extractArrayShapeLoop_eq arr []
  have hext : ExtractArrayShape true arr [] =
      ((arr.takeWhile Option.isSome).filterMap id, arr.all Option.isSome) := by
    unfold ExtractArrayShape
    rw [if_pos rfl, hloop, List.nil_append]
  refine ⟨by rw [hext], by rw [hext], ?_, ?_, rfl⟩
  · rintro vals rfl
    constructor
    · rw [hext]
      have htw : ((vals.map some).takeWhile Option.isSome) = vals.map some := by
        rw [List.takeWhile_eq_self_iff]
        intro a ha
        rcases List.mem_map.mp ha with ⟨b, _, rfl⟩
        rfl
      rw [htw]
      simp
    · simp
  · rintro pre post rfl
    rw [hext, (takeWhile_isSome_upto_none pre post).1,
      (takeWhile_isSome_upto_none pre post).2]
    simp

/-- Witness for C2: a fully convertible array and one with a failing slot. -/
theorem extractArrayShape_spec_witness :
    ExtractArrayShape true [some 2, some 3] [] = ([2, 3], true)
    ∧ ExtractArrayShape true [some 5, none, some 7] [] = ([5], false) :=
  ⟨((extractArrayShape_spec [some 2, some 3]).2.2.1 [2, 3] rfl).1,
   (extractArrayShape_spec [some 5, none, some 7]).2.2.2.1 [5] [some 7] rfl⟩

/-! ## Comma splitting (C10) -/

lemma strFindComma_eq_findIdx {str : List Char} {prev : Nat}
    (hpl : prev ≤ str.length) :
    strFindComma str prev
      = prev + (str.drop prev).findIdx (fun c => c = ',') := by
  unfold strFindComma
  cases hf : (str.drop prev).findIdx? (fun c => c = ',') with
  | some k =>
    have h := List.findIdx?_eq_some_iff_findIdx_eq.mp hf
    rw [h.2]
  | none =>
    have h := List.findIdx?_eq_none_iff_findIdx_eq.mp hf
    show str.length = prev + (str.drop prev).findIdx (fun c => c = ',')
    rw [h, List.length_drop]
    omega

lemma findIdx_spec (p : Char → Bool) :
    ∀ (t : List Char) (h : t.findIdx p < t.length), p (t[t.findIdx p]) = true := by
  intro t
  induction t with
  | nil => intro h; simp at h
  | cons a rest ih =>
    intro h
    by_cases hpa : p a
    · have h0 : (a :: rest).findIdx p = 0 := by simp [List.findIdx_cons, hpa]
      simp [h0, hpa]
    · have hfi : (a :: rest).findIdx p = rest.findIdx p + 1 := by
        simp [List.findIdx_cons, hpa]
      have h2 : rest.findIdx p < rest.length := by
        rw [hfi] at h
        simpa using h
      have h3 := ih h2
      simp only [hfi]
      simpa [List.getElem_cons_succ] using h3

lemma take_findIdx_free (t : List Char) :
    ∀ x ∈ t.take (t.findIdx (fun c => c = ',')), ¬ x = ',' := by
  intro x hx
  rcases List.mem_iff_getElem.mp hx with ⟨j, hj, rfl⟩
  have hj2 : j < t.findIdx (fun c => c = ',') := by
    rw [List.length_take] at hj
    omega
  have h := List.not_of_lt_findIdx hj2
  intro he
  rw [List.getElem_take] at he
  rw [he] at h
  simp at h

lemma filter_splitOn_step (t : List Char) (i : Nat) (hlt : i < t.length)
    (hcomma : t[i] = ',') (hfree : ∀ x ∈ t.take i, ¬ x = ',') :
    (t.splitOn ',').filter (fun x => ¬ x = []) =
      (if t.take i = [] then [] else [t.take i]) ++
      ((t.drop (i + 1)).splitOn ',').filter (fun x => ¬ x = []) := by
  have hfree2 : ∀ x ∈ t.take i, ¬((x == ',') = true) := by
    intro x hx
    simpa using hfree x hx
  have hdecomp : t = t.take i ++ ',' :: t.drop (i + 1) := by
    conv_lhs => rw [← List.take_append_drop i t]
    congr 1
    rw [← List.getElem_cons_drop t i hlt, hcomma]
  conv_lhs => rw [hdecomp]
  simp only [List.splitOn]
  rw [List.splitOnP_first _ _ hfree2 ',' (by simp) _]
  rw [List.filter_cons]
  by_cases hti : t.take i = []
  · simp [hti]
  · simp [hti]

lemma filter_splitOn_nocomma (t : List Char)
    (hfree : ∀ x ∈ t, ¬ x = ',') :
    (t.splitOn ',').filter (fun x => ¬ x = []) = if t = [] then [] else [t] := by
  have hfree2 : ∀ x ∈ t, ¬((x == ',') = true) := by
    intro x hx
    simpa using hfree x hx
  have h1 : t.splitOn ',' = [t] := by
    simp only [List.splitOn]
    exact List.splitOnP_eq_single _ _ hfree2
  rw [h1]
  by_cases ht : t = [] <;> simp [ht]

lemma splitLoop_eq_aux :
    ∀ (n : Nat) (str : List Char) (prev : Nat),
      str.length - prev ≤ n → prev ≤ str.length →
      splitLoop str prev =
        ((str.drop prev).splitOn ',').filter (fun x => ¬ x = []) := by
  intro n
  induction n with
  | zero =>
    intro str prev hle hpl
    have hprev : prev = str.length := by omega
    subst hprev
    have hpos : strFindComma str str.length = str.length := by
      unfold strFindComma
      rw [List.drop_length]
      rfl
    rw [splitLoop, hpos, if_neg (by omega)]
    unfold splitTokenList
    rw [hpos, List.drop_length]
    simp
  | succ n ih =>
    intro str prev hle hpl
    have hpos := strFindComma_eq_findIdx hpl
    have hlen : (str.drop prev).length = str.length - prev := by simp
    rcases Nat.lt_or_ge ((str.drop prev).findIdx (fun c => c = ','))
        (str.drop prev).length with hlt | hge
    · have hstl : splitTokenList str prev =
          if (str.drop prev).take ((str.drop prev).findIdx (fun c => c = ',')) = []
          then []
          else [(str.drop prev).take
            ((str.drop prev).findIdx (fun c => c = ','))] := by
        unfold splitTokenList
        rw [hpos, Nat.add_sub_cancel_left]
      have hcomma : (str.drop prev)[(str.drop prev).findIdx (fun c => c = ',')]
          = ',' := by
        have h := findIdx_spec (fun c => c = ',') (str.drop prev) hlt
        simpa using h
      have hposlt : strFindComma str prev < str.length := by
        rw [hpos]; omega
      have hdd : str.drop (strFindComma str prev + 1) =
          (str.drop prev).drop
            ((str.drop prev).findIdx (fun c => c = ',') + 1) := by
        rw [hpos, List.drop_drop, Nat.add_assoc]
      have hstep := filter_splitOn_step (str.drop prev)
        ((str.drop prev).findIdx (fun c => c = ',')) hlt hcomma
        (take_findIdx_free (str.drop prev))
      by_cases hc2 : strFindComma str prev + 1 < str.length
      · rw [splitLoop, if_pos ⟨hposlt, hc2⟩, hstl]
        rw [ih str (strFindComma str prev + 1)
          (by rw [hpos] at hc2 ⊢; omega) (by omega)]
        rw [hdd]
        exact hstep.symm
      · rw [splitLoop, if_neg (fun hand => hc2 hand.2), hstl]
        have hdrop2 : (str.drop prev).drop
            ((str.drop prev).findIdx (fun c => c = ',') + 1) = [] := by
          rw [← hdd]
          have hEq : strFindComma str prev + 1 = str.length := by omega
          rw [hEq, List.drop_length]
        rw [hstep, hdrop2]
        simp
    · have hieq : (str.drop prev).findIdx (fun c => c = ',')
          = (str.drop prev).length :=
        le_antisymm (List.findIdx_le_length _) hge
      have hfree : ∀ x ∈ str.drop prev, ¬ x = ',' := by
        intro x hx
        have h := List.findIdx_eq_length.mp hieq x hx
        intro he
        rw [he] at h
        simp at h
      have hpos2 : strFindComma str prev = str.length := by
        rw [hpos, hieq, List.length_drop]
        omega
      rw [splitLoop, if_neg (by rw [hpos2]; omega)]
      have hstl2 : splitTokenList str prev =
          if str.drop prev = [] then [] else [str.drop prev] := by
        unfold splitTokenList
        rw [hpos2]
        have hT : str.length - prev = (str.drop prev).length := by simp
        rw [hT, List.take_length]
      rw [hstl2, filter_splitOn_nocomma (str.drop prev) hfree]

lemma splitOnP_sep_not_mem (p : Char → Bool) :
    ∀ (l : List Char), ∀ x ∈ l.splitOnP p, ∀ a ∈ x, p a = false := by
  intro l
  induction l with
  | nil =>
    intro x hx a ha
    rw [List.splitOnP_nil] at hx
    simp only [List.mem_singleton] at hx
    subst hx
    simp at ha
  | cons b rest ih =>
    intro x hx a ha
    rw [List.splitOnP_cons] at hx
    by_cases hb : p b
    · rw [if_pos hb] at hx
      rcases List.mem_cons.mp hx with rfl | hx2
      · simp at ha
      · exact ih x hx2 a ha
    · rw [if_neg hb] at hx
      rcases hsp : rest.splitOnP p with _ | ⟨hd, tl⟩
      · exact absurd hsp (List.splitOnP_ne_nil p rest)
      · rw [hsp] at hx
        simp only [List.modifyHead] at hx
        rcases List.mem_cons.mp hx with rfl | hx2
        · rcases List.mem_cons.mp ha with rfl | ha2
          · simpa using hb
          · exact ih hd (by rw [hsp]; exact List.mem_cons_self _ _) a ha2
        · exact ih x (by rw [hsp]; exact List.mem_cons_of_mem _ hx2) a ha

/-- C10: `split` returns exactly the non-empty maximal comma-free substrings
of the input in order (the comma-split segments with empty segments
discarded): it equals `splitOn` followed by dropping empty tokens, every
returned token is non-empty and comma-free, and a non-empty input without
commas yields the singleton list of the input itself. -/
theorem split_spec (str : List Char) :
    split str = (str.splitOn ',').filter (fun x => ¬ x = [])
    ∧ (∀ x ∈ split str, ¬ x = [] ∧ ¬ (',' : Char) ∈ x)
    ∧ (¬ (',' : Char) ∈ str → ¬ str = [] → split str = [str]) := by
  have hmain : split str = (str.splitOn ',').filter (fun x => ¬ x = []) := by
    have h := splitLoop_eq_aux str.length str 0 (by omega) (Nat.zero_le _)
    rw [List.drop_zero] at h
    exact h
  refine ⟨hmain, ?_, ?_⟩
  · intro x hx
    rw [hmain] at hx
    have hxf := List.mem_filter.mp hx
    refine ⟨by simpa using hxf.2, ?_⟩
    intro hmem
    have h1 : x ∈ str.splitOnP (fun c => c == ',') := by
      have h2 := hxf.1
      simpa [List.splitOn] using h2
    have hsep := splitOnP_sep_not_mem (fun c => c == ',') str x h1 ',' hmem
    simp at hsep
  · intro hnc hne
    rw [hmain, filter_splitOn_nocomma str (fun x hx he => hnc (he ▸ hx)),
      if_neg hne]

/-- Witness for C10: consecutive, leading and trailing commas contribute no
token, and a comma-free input is returned whole. -/
theorem split_spec_witness :
    split ("a,,b,".toList) = ["a".toList, "b".toList]
    ∧ split ("ab".toList) = ["ab".toList] := by
  constructor
  · rw [(split_spec ("a,,b,".toList)).1]
    decide
  · exact (split_spec ("ab".toList)).2.2 (by decide) (by decide)
